import Mathlib

/-!
Verification of the table storage engine of a minimal relational record
store (Rust sources: `core` crate for the data model, `server` crate for
the state manager and the query/mutation handlers).

The embedding is shallow: each Rust struct/enum becomes a Lean type, each
handler becomes a pure function.  The server's shared mutable collection
(`AppState`) is modelled as a `List Table` threaded through the handlers;
every handler returns the possibly-mutated collection together with its
outcome.  Rust `Vec` indexing, which aborts the process when out of
bounds, is modelled by the `RunResult.crash` outcome.
-/

/-- Models `core::value::Value`: a tagged primitive value. -/
inductive Value where
  | Str : String → Value
  | Bool : Bool → Value
  | Int : Int → Value
  | Float : Float → Value
  | Null : Value

/-- Models `impl From<String> for Value` (`Value::from` on the untyped
update payload): always builds the `Str` variant. -/
def Value.ofString (s : String) : Value := Value.Str s

/-- Models `impl From<Option<&str>> for Value`: absence maps to `Null`. -/
def Value.ofOptionString : Option String → Value
  | some s => Value.Str s
  | none => Value.Null

/-- Models `Value::as_string`: `None` only for `Null`, otherwise the
literal textual form of the payload. -/
def Value.as_string : Value → Option String
  | Value.Str s => some s
  | Value.Bool b => some (toString b)
  | Value.Int i => some (toString i)
  | Value.Float f => some (toString f)
  | Value.Null => none

/-- Models `core::row::Row`: an ordered list of values. -/
structure Row where
  values : List Value

/-- Models `Row::new`. -/
def Row.new (values : List Value) : Row := ⟨values⟩

/-- Models `Row::add_value` (a `Vec::push` of the converted value). -/
def Row.add_value (row : Row) (value : Value) : Row := ⟨row.values ++ [value]⟩

/-- Models `core::column::Column`; `foreign_key` is an owned tree of
sub-columns (`Option<Vec<Box<Column>>>` in the source). -/
inductive Column where
  | mk (key : String) (primary_key : Bool) (non_null : Bool) (unique : Bool)
      (foreign_key : Option (List Column)) : Column

/-- Projection of the `key` field of a `Column`. -/
def Column.key : Column → String
  | .mk k _ _ _ _ => k

/-- Projection of the `primary_key` field of a `Column`. -/
def Column.primary_key : Column → Bool
  | .mk _ p _ _ _ => p

/-- Projection of the `non_null` field of a `Column`. -/
def Column.non_null : Column → Bool
  | .mk _ _ n _ _ => n

/-- Projection of the `unique` field of a `Column`. -/
def Column.unique : Column → Bool
  | .mk _ _ _ u _ => u

/-- Projection of the `foreign_key` field of a `Column`. -/
def Column.foreign_key : Column → Option (List Column)
  | .mk _ _ _ _ fk => fk

/-- Models `Column::new` exactly as written in `core/src/column.rs`: it
performs no validation whatsoever and always returns the record built
from its arguments. -/
def Column.new (key : String) (primary_key : Bool) (non_null : Bool) (unique : Bool)
    (foreign_key : Option (List Column)) : Column :=
  Column.mk key primary_key non_null unique foreign_key

/-- Models `core::entry::Entry`. -/
inductive Entry where
  | mk (key : String) (value : String) (primary_key : Bool) (non_null : Bool)
      (unique : Bool) (foreign_key : Option (List Entry)) : Entry

/-- Models `Entry::new` from `core/src/entry.rs`.  The source calls
`panic!` (a process abort) when `primary_key && (non_null == false ||
value.is_empty())` or when `primary_key && !unique`; the abort is
modelled as `none`. -/
def Entry.new (key : String) (value : String) (primary_key : Bool) (non_null : Bool)
    (unique : Bool) (foreign_key : Option (List Entry)) : Option Entry :=
  if primary_key && (non_null == false || value.isEmpty) then
    none
  else if primary_key && !unique then
    none
  else
    some (Entry.mk key value primary_key non_null unique foreign_key)

/-- Models `core::table::Table`. -/
structure Table where
  name : String
  columns : List Column
  rows : List Row

/-- Models `Table::add_column` (an unconditional `Vec::push`). -/
def Table.add_column (table : Table) (column : Column) : Table :=
  { table with columns := table.columns ++ [column] }

/-- Models `Table::add_row` (an unconditional `Vec::push`). -/
def Table.add_row (table : Table) (row : Row) : Table :=
  { table with rows := table.rows ++ [row] }

/-- Models `core::request_types::Condition`. -/
structure Condition where
  column : String
  value : String

/-- Models `core::request_types::UpdateColumnRequest`. -/
structure UpdateColumnRequest where
  column : String
  value : String

/-- Models `core::request_types::UpdateRequest`. -/
structure UpdateRequest where
  table_name : String
  condition : Option Condition
  updates : List UpdateColumnRequest

/-- Models `core::request_types::InsertColumnRequest` (after the
handler's `Box` re-wrapping, which is identity at this level). -/
structure InsertColumnRequest where
  table_name : String
  key : String
  primary_key : Bool
  non_null : Bool
  unique : Bool
  foreign_key : Option (List Column)

/-- Models `core::request_types::InsertRowRequest`. -/
structure InsertRowRequest where
  table_name : String
  row : Row

/-- Models `core::request_types::CreateTableRequests`. -/
structure CreateTableRequests where
  name : String
  insert_column_requests : List InsertColumnRequest

/-- The distinct validation failures produced by the server handlers.
Each constructor stands for one of the distinct `format!` error strings
in `server/src/main.rs`, carrying the data interpolated there. -/
inductive DbError where
  | tableAlreadyExists (name : String)
  | tableNotFound (name : String)
  | columnNotFound (name : String)
  | rowArityExceeded (got : Nat) (expected : Nat)
  | nonNullViolation (got : Nat) (expected : Nat)
deriving DecidableEq

/-- Outcome of running a handler body: `crash` models a Rust panic from
an out-of-bounds `Vec` index, `err` an error response, `ok` success. -/
inductive RunResult (α : Type) where
  | crash : RunResult α
  | err : DbError → RunResult α
  | ok : α → RunResult α

/-- Sequencing of fallible computations (Rust control flow: an early
`return` of an error response, or a panic, aborts the rest). -/
def RunResult.bind {α β : Type} : RunResult α → (α → RunResult β) → RunResult β
  | .crash, _ => .crash
  | .err e, _ => .err e
  | .ok a, f => f a

namespace AppState

/-- Models `AppState::get`: first table whose `name` equals the argument. -/
def get (tables : List Table) (table_name : String) : Option Table :=
  tables.find? (fun table => table.name == table_name)

/-- Models `AppState::create`: unconditional push at the end. -/
def create (tables : List Table) (table : Table) : List Table :=
  tables ++ [table]

/-- Models `AppState::drop_table`: remove the first table with the given
name, reporting whether one was removed. -/
def drop_table (tables : List Table) (table_name : String) : List Table × Bool :=
  match tables.findIdx? (fun table => table.name == table_name) with
  | some index => (tables.eraseIdx index, true)
  | none => (tables, false)

end AppState

/-- The `table.columns.iter().position(|col| col.key == name)` search
used throughout the select/update handlers. -/
def colPosition (table : Table) (name : String) : Option Nat :=
  table.columns.findIdx? (fun col => col.key == name)

/-- The condition test of `select_rows`: resolve the condition column,
index into the row (a panicking `Vec` index) and compare
`as_string().unwrap_or_default()` with the condition value. -/
def condCheck (table : Table) (condition : Option Condition) (row : Row) :
    RunResult Bool :=
  match condition with
  | none => .ok true
  | some cond =>
    match colPosition table cond.column with
    | some col_index =>
      match row.values[col_index]? with
      | some v => .ok ((v.as_string.getD "") == cond.value)
      | none => .crash
    | none => .err (.columnNotFound cond.column)

/-- The projection loop of `select_rows` for an explicit column list:
resolve each requested name in the requested order and copy that
positional value (a panicking `Vec` index). -/
def projectCols (table : Table) (row : Row) : List String → RunResult (List Value)
  | [] => .ok []
  | col :: cols =>
    match colPosition table col with
    | some col_index =>
      match row.values[col_index]? with
      | some v => (projectCols table row cols).bind (fun vs => .ok (v :: vs))
      | none => .crash
    | none => .err (.columnNotFound col)

/-- Builds the projected row of `select_rows`: explicit list, or a full
copy of the row's values for `SELECT *`. -/
def projectRow (table : Table) (columns : Option (List String)) (row : Row) :
    RunResult Row :=
  match columns with
  | some cols => (projectCols table row cols).bind (fun vs => .ok (Row.new vs))
  | none => .ok (Row.new row.values)

/-- The row loop of `select_rows`: filter by the condition, project the
retained rows, keep the original storage order. -/
def selectLoop (table : Table) (columns : Option (List String))
    (condition : Option Condition) : List Row → RunResult (List Row)
  | [] => .ok []
  | row :: rest =>
    (condCheck table condition row).bind fun keep =>
      if keep then
        (projectRow table columns row).bind fun selected_row =>
          (selectLoop table columns condition rest).bind fun rows =>
            .ok (selected_row :: rows)
      else
        selectLoop table columns condition rest

/-- Models the `select_rows` helper of `server/src/main.rs`. -/
def select_rows (table : Table) (columns : Option (List String))
    (condition : Option Condition) : RunResult (List Row) :=
  selectLoop table columns condition table.rows

/-- The inner loop of `update_table`'s first pass: apply every update to
one (copied) row, failing on the first unresolved column name; the
positional write `row.values[i] = v` panics when out of bounds. -/
def updateRowCopy (table : Table) (row : Row) :
    List UpdateColumnRequest → RunResult Row
  | [] => .ok row
  | u :: updates =>
    match colPosition table u.column with
    | some col_index =>
      if col_index < row.values.length then
        updateRowCopy table (Row.new (row.values.set col_index (Value.ofString u.value))) updates
      else .crash
    | none => .err (.columnNotFound u.column)

/-- The first pass of `update_table`: update every selected row copy. -/
def updateSelectedLoop (table : Table) (updates : List UpdateColumnRequest) :
    List Row → RunResult (List Row)
  | [] => .ok []
  | row :: rest =>
    (updateRowCopy table row updates).bind fun row2 =>
      (updateSelectedLoop table updates rest).bind fun rows =>
        .ok (row2 :: rows)

/-- The update application of `update_table`'s second pass: unresolved
update columns are silently skipped there (`if let` with no `else`). -/
def applyUpdatesSilent (table : Table) (row : Row) :
    List UpdateColumnRequest → RunResult Row
  | [] => .ok row
  | u :: updates =>
    match colPosition table u.column with
    | some update_col_index =>
      if update_col_index < row.values.length then
        applyUpdatesSilent table
          (Row.new (row.values.set update_col_index (Value.ofString u.value))) updates
      else .crash
    | none => applyUpdatesSilent table row updates

/-- One row of `update_table`'s second (write-back) pass.  The whole
body is guarded by `if let Some(condition) = &payload.condition`, so a
request without a condition writes nothing back; an unresolved condition
column is silently skipped. -/
def writeBackRow (table : Table) (condition : Option Condition)
    (updates : List UpdateColumnRequest) (row : Row) : RunResult Row :=
  match condition with
  | none => .ok row
  | some cond =>
    match colPosition table cond.column with
    | none => .ok row
    | some col_index =>
      match row.values[col_index]? with
      | none => .crash
      | some v =>
        if (v.as_string.getD "") == cond.value then
          applyUpdatesSilent table row updates
        else
          .ok row

/-- The second pass of `update_table` over all stored rows. -/
def writeBackLoop (table : Table) (condition : Option Condition)
    (updates : List UpdateColumnRequest) : List Row → RunResult (List Row)
  | [] => .ok []
  | row :: rest =>
    (writeBackRow table condition updates row).bind fun row2 =>
      (writeBackLoop table condition updates rest).bind fun rows =>
        .ok (row2 :: rows)

/-- Models the `update_table` handler: select the matching rows, update
the copies (failing fast on unresolved update columns), write back to
the stored rows, then drop and re-create the table under its name. -/
def update_table (state : List Table) (payload : UpdateRequest) :
    List Table × RunResult Unit :=
  match AppState.get state payload.table_name with
  | none => (state, .err (.tableNotFound payload.table_name))
  | some table =>
    match select_rows table none payload.condition with
    | .crash => (state, .crash)
    | .err e => (state, .err e)
    | .ok selected_rows =>
      match updateSelectedLoop table payload.updates selected_rows with
      | .crash => (state, .crash)
      | .err e => (state, .err e)
      | .ok _ =>
        match writeBackLoop table payload.condition payload.updates table.rows with
        | .crash => (state, .crash)
        | .err e => (state, .err e)
        | .ok new_rows =>
          let state2 := (AppState.drop_table state payload.table_name).1
          let updated_table : Table :=
            { name := payload.table_name, columns := table.columns, rows := new_rows }
          (AppState.create state2 updated_table, .ok ())

/-- The common tail of the `insert_row` handler after the arity and
padding checks passed: report the string projections of the (possibly
padded) row, append it to the table, and drop / re-create the table in
the collection. -/
def insertRowFinish (state : List Table) (table_name : String) (table : Table)
    (row2 : Row) : List Table × RunResult (List String) :=
  let row_values := row2.values.map (fun v => v.as_string.getD "")
  let table2 := table.add_row row2
  let state2 := (AppState.drop_table state table_name).1
  (AppState.create state2 table2, RunResult.ok row_values)

/-- Models the `insert_row` handler: arity check, trailing `Null`
padding guarded by the `non_null` flags of the trailing columns, then
drop and re-create the table with the row appended. -/
def insert_row (state : List Table) (payload : InsertRowRequest) :
    List Table × RunResult (List String) :=
  match AppState.get state payload.table_name with
  | none => (state, .err (.tableNotFound payload.table_name))
  | some table =>
    let row := payload.row
    let columns_len := table.columns.length
    if row.values.length > columns_len then
      (state, .err (.rowArityExceeded row.values.length columns_len))
    else if row.values.length < columns_len then
      let additional_rows := columns_len - row.values.length
      if (table.columns.reverse.take additional_rows).any (fun col => col.non_null) then
        (state, .err (.nonNullViolation row.values.length columns_len))
      else
        insertRowFinish state payload.table_name table
          (Row.new (row.values ++ List.replicate additional_rows Value.Null))
    else
      insertRowFinish state payload.table_name table row

/-- Models the `insert_column` handler: build the column with
`Column::new`, append it, then drop and re-create the table. -/
def insert_column (state : List Table) (payload : InsertColumnRequest) :
    List Table × RunResult Column :=
  match AppState.get state payload.table_name with
  | none => (state, .err (.tableNotFound payload.table_name))
  | some table =>
    let column := Column.new payload.key payload.primary_key payload.non_null
      payload.unique payload.foreign_key
    let table2 := table.add_column column
    let state2 := (AppState.drop_table state payload.table_name).1
    (AppState.create state2 table2, .ok column)

/-- Models the `create` handler: reject an existing name, otherwise push
a fresh empty table. -/
def create (state : List Table) (payload_name : String) :
    List Table × RunResult Table :=
  if (AppState.get state payload_name).isSome then
    (state, .err (.tableAlreadyExists payload_name))
  else
    let new_table : Table := { name := payload_name, columns := [], rows := [] }
    (AppState.create state new_table, .ok new_table)

/-- Models the `drop_table` handler. -/
def drop_table (state : List Table) (payload_name : String) :
    List Table × RunResult Unit :=
  let dropped := AppState.drop_table state payload_name
  if dropped.2 then (dropped.1, .ok ()) else (dropped.1, .err (.tableNotFound payload_name))

/-- Models the `rename_table` handler: look up the table, overwrite its
`name` field, drop the old name, push the renamed table.  The source
never checks whether a table named `new_name` already exists. -/
def rename_table (state : List Table) (current_name new_name : String) :
    List Table × RunResult Unit :=
  match AppState.get state current_name with
  | some table =>
    let table2 := { table with name := new_name }
    let state2 := (AppState.drop_table state current_name).1
    (AppState.create state2 table2, .ok ())
  | none => (state, .err (.tableNotFound current_name))

/-- The column-insertion loop of the `create_table` handler: each
request is re-targeted at the new table and fed to `insert_column`; an
error response aborts the loop but keeps the state mutated so far. -/
def create_table_loop (state : List Table) (table_name : String) :
    List InsertColumnRequest → List Table × RunResult Unit
  | [] => (state, .ok ())
  | req :: reqs =>
    let req2 := { req with table_name := table_name }
    match insert_column state req2 with
    | (state2, .ok _) => create_table_loop state2 table_name reqs
    | (state2, .err e) => (state2, .err e)
    | (state2, .crash) => (state2, .crash)

/-- Models the `create_table` handler: reject an existing name, push the
fresh table, then run every column-insertion request against it. -/
def create_table (state : List Table) (payload : CreateTableRequests) :
    List Table × RunResult Table :=
  if (AppState.get state payload.name).isSome then
    (state, .err (.tableAlreadyExists payload.name))
  else
    let new_table : Table := { name := payload.name, columns := [], rows := [] }
    let state2 := AppState.create state new_table
    match create_table_loop state2 payload.name payload.insert_column_requests with
    | (state3, .ok _) => (state3, .ok new_table)
    | (state3, .err e) => (state3, .err e)
    | (state3, .crash) => (state3, .crash)

/-!
## Snapshot serialization model

`AppState::save` serializes the collection with `serde_json::to_string`
and `AppState::load` parses it back with `serde_json::from_str`, both
through the `#[derive(Serialize, Deserialize)]` instances of `Table`,
`Column`, `Row` and `Value`.  The text layer belongs to the external
`serde_json` crate; what the repository determines is the serde data
model: which JSON value each derived instance produces and accepts.
`Json` below is that data model (numbers keep the `i64`/`f64` split of
`serde_json::Number`), `encode*` is the derived `Serialize` shape
(struct fields in declaration order, enums externally tagged) and
`decode*` is the derived `Deserialize` restricted to that canonical
shape.
-/

/-- The serde data model of a JSON document. -/
inductive Json where
  | null : Json
  | bool : Bool → Json
  | str : String → Json
  | int : Int → Json
  | float : Float → Json
  | arr : List Json → Json
  | obj : List (String × Json) → Json

/-- Derived `Serialize` for `Value`: externally tagged enum, the unit
variant `Null` serializing as the bare string. -/
def encodeValue : Value → Json
  | Value.Str s => Json.obj [("Str", Json.str s)]
  | Value.Bool b => Json.obj [("Bool", Json.bool b)]
  | Value.Int i => Json.obj [("Int", Json.int i)]
  | Value.Float f => Json.obj [("Float", Json.float f)]
  | Value.Null => Json.str "Null"

/-- Derived `Deserialize` for `Value` on the canonical encoded shape. -/
def decodeValue : Json → Option Value
  | Json.obj [("Str", Json.str s)] => some (Value.Str s)
  | Json.obj [("Bool", Json.bool b)] => some (Value.Bool b)
  | Json.obj [("Int", Json.int i)] => some (Value.Int i)
  | Json.obj [("Float", Json.float f)] => some (Value.Float f)
  | Json.str "Null" => some Value.Null
  | _ => none

/-- Derived `Serialize` for `Row`. -/
def encodeRow (row : Row) : Json :=
  Json.obj [("values", Json.arr (row.values.map encodeValue))]

/-- Element-wise deserialization of a value list. -/
def decodeValueList : List Json → Option (List Value)
  | [] => some []
  | j :: js =>
    match decodeValue j, decodeValueList js with
    | some v, some vs => some (v :: vs)
    | _, _ => none

/-- Derived `Deserialize` for `Row` on the canonical encoded shape. -/
def decodeRow : Json → Option Row
  | Json.obj [("values", Json.arr js)] =>
    match decodeValueList js with
    | some vs => some (Row.new vs)
    | none => none
  | _ => none

mutual

/-- Derived `Serialize` for `Column` (fields in declaration order). -/
def encodeColumn : Column → Json
  | Column.mk key primary_key non_null unique foreign_key =>
    Json.obj [("key", Json.str key), ("primary_key", Json.bool primary_key),
      ("non_null", Json.bool non_null), ("unique", Json.bool unique),
      ("foreign_key", encodeForeignKey foreign_key)]

/-- Derived `Serialize` for the `foreign_key` field (`None` is `null`). -/
def encodeForeignKey : Option (List Column) → Json
  | none => Json.null
  | some cols => Json.arr (encodeColumnList cols)

/-- Element-wise serialization of a column list. -/
def encodeColumnList : List Column → List Json
  | [] => []
  | c :: cs => encodeColumn c :: encodeColumnList cs

end

mutual

/-- Derived `Deserialize` for `Column` on the canonical encoded shape. -/
def decodeColumn : Json → Option Column
  | Json.obj [("key", Json.str key), ("primary_key", Json.bool primary_key),
      ("non_null", Json.bool non_null), ("unique", Json.bool unique),
      ("foreign_key", fk)] =>
    match decodeForeignKey fk with
    | some foreign_key => some (Column.mk key primary_key non_null unique foreign_key)
    | none => none
  | _ => none

/-- Derived `Deserialize` for the `foreign_key` field. -/
def decodeForeignKey : Json → Option (Option (List Column))
  | Json.null => some none
  | Json.arr js =>
    match decodeColumnList js with
    | some cols => some (some cols)
    | none => none
  | _ => none

/-- Element-wise deserialization of a column list. -/
def decodeColumnList : List Json → Option (List Column)
  | [] => some []
  | j :: js =>
    match decodeColumn j, decodeColumnList js with
    | some c, some cs => some (c :: cs)
    | _, _ => none

end

/-- Derived `Serialize` for `Table`. -/
def encodeTable (table : Table) : Json :=
  Json.obj [("name", Json.str table.name),
    ("columns", Json.arr (encodeColumnList table.columns)),
    ("rows", Json.arr (table.rows.map encodeRow))]

/-- Element-wise deserialization of a row list. -/
def decodeRowList : List Json → Option (List Row)
  | [] => some []
  | j :: js =>
    match decodeRow j, decodeRowList js with
    | some r, some rs => some (r :: rs)
    | _, _ => none

/-- Derived `Deserialize` for `Table` on the canonical encoded shape. -/
def decodeTable : Json → Option Table
  | Json.obj [("name", Json.str name), ("columns", Json.arr cs), ("rows", Json.arr rs)] =>
    match decodeColumnList cs, decodeRowList rs with
    | some columns, some rows => some { name := name, columns := columns, rows := rows }
    | _, _ => none
  | _ => none

/-- Models the serialization performed by `AppState::save`: the whole
collection as one JSON array of tables. -/
def saveSnapshot (tables : List Table) : Json :=
  Json.arr (tables.map encodeTable)

/-- Element-wise deserialization of a table list. -/
def decodeTableList : List Json → Option (List Table)
  | [] => some []
  | j :: js =>
    match decodeTable j, decodeTableList js with
    | some t, some ts => some (t :: ts)
    | _, _ => none

/-- Models the deserialization performed by `AppState::load` on the
canonical snapshot shape. -/
def loadSnapshot : Json → Option (List Table)
  | Json.arr js => decodeTableList js
  | _ => none

/-!
## Specification-side definitions

These definitions follow the wording of the specification (not the
source); the theorems below compare the handler functions against them.
-/

/-- Spec-side matching rule: a row matches a condition resolved to
column position `col_index` when the string projection of the value
there (with `Null` projecting to the empty string, as the source's
`unwrap_or_default` does) equals the comparison value. -/
def matchesCondSpec (row : Row) (col_index : Nat) (v : String) : Bool :=
  ((row.values.getD col_index Value.Null).as_string.getD "") == v

/-- Well-formedness of a table: every stored row has exactly one value
per column. -/
def wfTable (table : Table) : Prop :=
  ∀ r ∈ table.rows, r.values.length = table.columns.length

/-- The names under which tables are stored, in storage order. -/
def tableNames (state : List Table) : List String :=
  state.map Table.name

/-- Name-uniqueness invariant of the state manager. -/
def namesNodup (state : List Table) : Prop :=
  (tableNames state).Nodup

/-!
## Helper lemmas
-/

theorem colPosition_lt {table : Table} {name : String} {j : Nat}
    (h : colPosition table name = some j) : j < table.columns.length := by
  unfold colPosition at h
  exact (List.findIdx?_eq_some_iff_findIdx_eq.mp h).1

theorem colPosition_key {table : Table} {name : String} {j : Nat}
    (h : colPosition table name = some j) :
    ∃ hj : j < table.columns.length, (table.columns.get ⟨j, hj⟩).key = name := by
  unfold colPosition at h
  rw [List.findIdx?_eq_some_iff_getElem] at h
  obtain ⟨hj, hkey, _⟩ := h
  exact ⟨hj, by simpa using hkey⟩

theorem condCheck_ok {table : Table} {cond : Condition} {row : Row} {j : Nat}
    (hres : colPosition table cond.column = some j)
    (hlen : row.values.length = table.columns.length) :
    condCheck table (some cond) row = .ok (matchesCondSpec row j cond.value) := by
  have hj : j < row.values.length := hlen ▸ colPosition_lt hres
  simp only [condCheck, hres, List.getElem?_eq_getElem hj]
  simp [matchesCondSpec, List.getD_eq_getElem?_getD, List.getElem?_eq_getElem hj]

theorem projectCols_ok {table : Table} {row : Row}
    (hlen : row.values.length = table.columns.length) :
    ∀ {names : List String} {is : List Nat},
    names.mapM (colPosition table) = some is →
    projectCols table row names = .ok (is.map (fun i => row.values.getD i Value.Null))
  | [], is, h => by
    simp only [List.mapM_nil] at h
    cases h
    rfl
  | name :: names, is, h => by
    simp only [List.mapM_cons] at h
    cases hr : colPosition table name with
    | none => rw [hr] at h; simp at h
    | some j =>
      rw [hr] at h
      cases hrest : names.mapM (colPosition table) with
      | none => rw [hrest] at h; simp at h
      | some js =>
        rw [hrest] at h
        simp at h
        subst h
        have hj : j < row.values.length := hlen ▸ colPosition_lt hr
        simp only [projectCols, hr, List.getElem?_eq_getElem hj,
          projectCols_ok hlen hrest]
        simp [RunResult.bind, List.getD_eq_getElem?_getD, List.getElem?_eq_getElem hj]

theorem selectLoop_ok (table : Table) (cols : Option (List String))
    (cond : Option Condition) (pd : Row → Bool) (pr : Row → Row)
    (hcond : ∀ r, r.values.length = table.columns.length →
      condCheck table cond r = .ok (pd r))
    (hproj : ∀ r, r.values.length = table.columns.length →
      projectRow table cols r = .ok (pr r)) :
    ∀ rows : List Row, (∀ r ∈ rows, r.values.length = table.columns.length) →
      selectLoop table cols cond rows = .ok ((rows.filter pd).map pr)
  | [], _ => rfl
  | row :: rest, hlen => by
    have hhead := hlen row (by simp)
    have htail : ∀ r ∈ rest, r.values.length = table.columns.length :=
      fun r hr => hlen r (by simp [hr])
    unfold selectLoop
    rw [hcond row hhead]
    cases hpd : pd row with
    | true =>
      simp only [RunResult.bind, if_true]
      rw [hproj row hhead, selectLoop_ok table cols cond pd pr hcond hproj rest htail]
      simp [RunResult.bind, List.filter_cons, hpd]
    | false =>
      simp only [RunResult.bind, if_false]
      rw [selectLoop_ok table cols cond pd pr hcond hproj rest htail]
      simp [List.filter_cons, hpd]

theorem condCheck_none (table : Table) (row : Row) :
    condCheck table none row = .ok true := rfl

theorem projectRow_none (table : Table) (row : Row) :
    projectRow table none row = .ok row := rfl

theorem projectRow_some {table : Table} {row : Row} {names : List String}
    {is : List Nat} (hnames : names.mapM (colPosition table) = some is)
    (hlen : row.values.length = table.columns.length) :
    projectRow table (some names) row =
      .ok (Row.new (is.map (fun i => row.values.getD i Value.Null))) := by
  simp [projectRow, projectCols_ok hlen hnames, RunResult.bind]

theorem get_some_name {state : List Table} {name : String} {table : Table}
    (h : AppState.get state name = some table) : table.name = name := by
  have := List.find?_some h
  simpa using this

theorem get_none_not_mem {state : List Table} {name : String}
    (h : AppState.get state name = none) : name ∉ tableNames state := by
  unfold AppState.get at h
  rw [List.find?_eq_none] at h
  intro hmem
  obtain ⟨t, ht, rfl⟩ := List.mem_map.mp hmem
  exact absurd (by simp : (t.name == t.name) = true) (by simpa using h t ht)

theorem eraseIdx_map_comm (f : α → β) :
    ∀ (l : List α) (i : Nat), (l.eraseIdx i).map f = (l.map f).eraseIdx i
  | [], _ => by simp
  | a :: l, 0 => by simp [List.eraseIdx]
  | a :: l, i + 1 => by simp [List.eraseIdx, eraseIdx_map_comm f l i]

theorem nodup_eraseIdx_concat :
    ∀ (l : List α) (i : Nat) (a : α), l.Nodup → l[i]? = some a →
      (l.eraseIdx i ++ [a]).Nodup
  | [], i, a, _, h => by simp at h
  | b :: bs, 0, a, hnd, h => by
    simp only [List.getElem?_cons_zero, Option.some.injEq] at h
    subst h
    obtain ⟨hb, hbs⟩ := List.nodup_cons.mp hnd
    simp [List.eraseIdx, List.nodup_append, hbs, hb]
  | b :: bs, i + 1, a, hnd, h => by
    simp only [List.getElem?_cons_succ] at h
    obtain ⟨hb, hbs⟩ := List.nodup_cons.mp hnd
    have ha : a ∈ bs := List.getElem?_mem h
    have hba : b ≠ a := fun heq => hb (heq ▸ ha)
    have htail := nodup_eraseIdx_concat bs i a hbs h
    simp only [List.eraseIdx, List.cons_append, List.nodup_cons]
    refine ⟨?_, htail⟩
    intro hmem
    rcases List.mem_append.mp hmem with hmem | hmem
    · exact hb ((List.eraseIdx_sublist bs i).mem hmem)
    · simp at hmem
      exact hba hmem

theorem nodup_drop_create {state : List Table} {name : String} {table t2 : Table}
    (hnd : namesNodup state) (hget : AppState.get state name = some table)
    (hname : t2.name = name) :
    namesNodup (AppState.create (AppState.drop_table state name).1 t2) := by
  rw [AppState.get] at hget
  have hsome : (state.findIdx? (fun t => t.name == name)).isSome := by
    rw [List.findIdx?_isSome, List.any_eq_true]
    exact ⟨table, List.mem_of_find?_eq_some hget, by simpa using List.find?_some hget⟩
  obtain ⟨i, hi⟩ := Option.isSome_iff_exists.mp hsome
  obtain ⟨hlt, hkey, -⟩ := List.findIdx?_eq_some_iff_getElem.mp hi
  have hnames_i : (tableNames state)[i]? = some name := by
    unfold tableNames
    rw [List.getElem?_map, List.getElem?_eq_getElem hlt]
    simpa using hkey
  have key : ((tableNames state).eraseIdx i ++ [name]).Nodup :=
    nodup_eraseIdx_concat _ i name hnd hnames_i
  unfold namesNodup tableNames AppState.create AppState.drop_table
  rw [hi]
  simpa [tableNames, eraseIdx_map_comm, hname] using key

theorem nodup_concat_notMem {l : List α} {a : α} (h : l.Nodup) (ha : a ∉ l) :
    (l ++ [a]).Nodup := by
  rw [List.nodup_append_comm]
  exact List.nodup_cons.mpr ⟨ha, h⟩

theorem appstate_drop_nodup (state : List Table) (n : String)
    (hnd : namesNodup state) : namesNodup (AppState.drop_table state n).1 := by
  unfold AppState.drop_table
  cases hf : state.findIdx? (fun t => t.name == n) with
  | none => simpa using hnd
  | some i =>
    simp only [hf]
    unfold namesNodup tableNames at hnd ⊢
    rw [eraseIdx_map_comm]
    exact List.Nodup.sublist (List.eraseIdx_sublist _ i) hnd

theorem drop_table_fst_sublist (state : List Table) (n : String) :
    List.Sublist (tableNames (AppState.drop_table state n).1) (tableNames state) := by
  unfold AppState.drop_table
  cases hf : state.findIdx? (fun t => t.name == n) with
  | none => simp [hf]
  | some i =>
    simp only [hf]
    unfold tableNames
    rw [eraseIdx_map_comm]
    exact List.eraseIdx_sublist _ i

theorem nodup_drop_create_fresh {state : List Table} {name m : String} {t2 : Table}
    (hnd : namesNodup state) (hname : t2.name = m) (hm : m ∉ tableNames state) :
    namesNodup (AppState.create (AppState.drop_table state name).1 t2) := by
  have hdrop := appstate_drop_nodup state name hnd
  have hsub := drop_table_fst_sublist state name
  unfold AppState.create namesNodup tableNames
  rw [List.map_append]
  refine nodup_concat_notMem hdrop ?_
  simp only [List.map_cons, List.map_nil, hname, List.mem_singleton]
  exact fun hmem => hm (hsub.mem hmem)

theorem create_preserves_nodup (state : List Table) (n : String)
    (hnd : namesNodup state) : namesNodup (create state n).1 := by
  unfold create
  cases hg : AppState.get state n with
  | some t => simpa [hg] using hnd
  | none =>
    have hn : n ∉ tableNames state := get_none_not_mem hg
    simp only [hg, Option.isSome_none, Bool.false_eq_true, if_false]
    unfold AppState.create namesNodup tableNames
    rw [List.map_append]
    exact nodup_concat_notMem hnd hn

theorem drop_preserves_nodup (state : List Table) (n : String)
    (hnd : namesNodup state) : namesNodup (drop_table state n).1 := by
  have h := appstate_drop_nodup state n hnd
  unfold drop_table
  cases hd : AppState.drop_table state n with
  | mk st b =>
    have h2 : namesNodup st := by rw [hd] at h; exact h
    cases b <;> simp only [hd] <;> simpa using h2

theorem rename_preserves_nodup (state : List Table) (old_name new_name : String)
    (hnd : namesNodup state)
    (hfresh : new_name = old_name ∨ AppState.get state new_name = none) :
    namesNodup (rename_table state old_name new_name).1 := by
  unfold rename_table
  cases hg : AppState.get state old_name with
  | none => simpa using hnd
  | some table =>
    simp only [hg]
    rcases hfresh with rfl | hfresh
    · exact nodup_drop_create hnd hg rfl
    · exact nodup_drop_create_fresh hnd rfl (get_none_not_mem hfresh)

theorem insert_column_preserves_nodup (state : List Table)
    (payload : InsertColumnRequest) (hnd : namesNodup state) :
    namesNodup (insert_column state payload).1 := by
  unfold insert_column
  cases hg : AppState.get state payload.table_name with
  | none => simpa using hnd
  | some table =>
    simp only [hg]
    exact nodup_drop_create hnd hg (by simpa [Table.add_column] using get_some_name hg)

theorem insert_row_preserves_nodup (state : List Table)
    (payload : InsertRowRequest) (hnd : namesNodup state) :
    namesNodup (insert_row state payload).1 := by
  unfold insert_row
  cases hg : AppState.get state payload.table_name with
  | none => simpa using hnd
  | some table =>
    simp only [hg]
    have hfin : ∀ r : Row,
        namesNodup (insertRowFinish state payload.table_name table r).1 := by
      intro r
      unfold insertRowFinish
      exact nodup_drop_create hnd hg (by simpa [Table.add_row] using get_some_name hg)
    split
    · simpa using hnd
    · split
      · split
        · simpa using hnd
        · exact hfin _
      · exact hfin _

theorem update_table_preserves_nodup (state : List Table)
    (payload : UpdateRequest) (hnd : namesNodup state) :
    namesNodup (update_table state payload).1 := by
  unfold update_table
  cases hg : AppState.get state payload.table_name with
  | none => simpa using hnd
  | some table =>
    simp only [hg]
    cases hs : select_rows table none payload.condition with
    | crash => simp only [hs]; exact hnd
    | err e => simp only [hs]; exact hnd
    | ok selected_rows =>
      simp only [hs]
      cases hu : updateSelectedLoop table payload.updates selected_rows with
      | crash => simp only [hu]; exact hnd
      | err e => simp only [hu]; exact hnd
      | ok l =>
        simp only [hu]
        cases hw : writeBackLoop table payload.condition payload.updates table.rows with
        | crash => simp only [hw]; exact hnd
        | err e => simp only [hw]; exact hnd
        | ok new_rows =>
          simp only [hw]
          exact nodup_drop_create hnd hg rfl

theorem create_table_loop_preserves_nodup (table_name : String) :
    ∀ (reqs : List InsertColumnRequest) (state : List Table), namesNodup state →
      namesNodup (create_table_loop state table_name reqs).1
  | [], state, hnd => hnd
  | req :: reqs, state, hnd => by
    unfold create_table_loop
    cases hic : insert_column state { req with table_name := table_name } with
    | mk state2 r =>
      have h2 : namesNodup state2 := by
        have h := insert_column_preserves_nodup state
          { req with table_name := table_name } hnd
        rw [hic] at h
        exact h
      cases r with
      | crash => simp only [hic]; exact h2
      | err e => simp only [hic]; exact h2
      | ok c =>
        simp only [hic]
        exact create_table_loop_preserves_nodup table_name reqs state2 h2

theorem create_table_preserves_nodup (state : List Table)
    (payload : CreateTableRequests) (hnd : namesNodup state) :
    namesNodup (create_table state payload).1 := by
  unfold create_table
  cases hg : AppState.get state payload.name with
  | some t => simpa [hg] using hnd
  | none =>
    have hn : namesNodup (AppState.create state
        { name := payload.name, columns := [], rows := [] }) := by
      unfold AppState.create namesNodup tableNames
      rw [List.map_append]
      exact nodup_concat_notMem hnd (get_none_not_mem hg)
    simp only [hg, Option.isSome_none, Bool.false_eq_true, if_false]
    cases hloop : create_table_loop
        (AppState.create state { name := payload.name, columns := [], rows := [] })
        payload.name payload.insert_column_requests with
    | mk state3 r =>
      have h3 : namesNodup state3 := by
        have h := create_table_loop_preserves_nodup payload.name
          payload.insert_column_requests _ hn
        rw [hloop] at h
        exact h
      cases r with
      | crash => simp only [hloop]; exact h3
      | err e => simp only [hloop]; exact h3
      | ok u => simp only [hloop]; exact h3

theorem condCheck_ne_crash {table : Table} {cond : Option Condition} {row : Row}
    (hlen : row.values.length = table.columns.length) :
    condCheck table cond row ≠ .crash := by
  cases cond with
  | none => simp [condCheck]
  | some c =>
    cases hcp : colPosition table c.column with
    | none => simp [condCheck, hcp]
    | some j =>
      have hj : j < row.values.length := hlen ▸ colPosition_lt hcp
      simp [condCheck, hcp, List.getElem?_eq_getElem hj]

theorem projectCols_ne_crash (table : Table) (row : Row)
    (hlen : row.values.length = table.columns.length) :
    ∀ names : List String, projectCols table row names ≠ .crash
  | [] => by simp [projectCols]
  | name :: names => by
    cases hcp : colPosition table name with
    | none => simp [projectCols, hcp]
    | some j =>
      have hj : j < row.values.length := hlen ▸ colPosition_lt hcp
      have htail := projectCols_ne_crash table row hlen names
      cases hrec : projectCols table row names with
      | crash => exact absurd hrec htail
      | err e =>
        simp [projectCols, hcp, List.getElem?_eq_getElem hj, hrec, RunResult.bind]
      | ok vs =>
        simp [projectCols, hcp, List.getElem?_eq_getElem hj, hrec, RunResult.bind]

theorem projectRow_ne_crash (table : Table) (cols : Option (List String)) (row : Row)
    (hlen : row.values.length = table.columns.length) :
    projectRow table cols row ≠ .crash := by
  cases cols with
  | none => simp [projectRow]
  | some names =>
    have h := projectCols_ne_crash table row hlen names
    cases hrec : projectCols table row names with
    | crash => exact absurd hrec h
    | err e => simp [projectRow, hrec, RunResult.bind]
    | ok vs => simp [projectRow, hrec, RunResult.bind]

theorem selectLoop_ne_crash (table : Table) (cols : Option (List String))
    (cond : Option Condition) :
    ∀ rows : List Row, (∀ r ∈ rows, r.values.length = table.columns.length) →
      selectLoop table cols cond rows ≠ .crash
  | [], _ => by simp [selectLoop]
  | row :: rest, hlen => by
    have hhead := hlen row (by simp)
    have htail : ∀ r ∈ rest, r.values.length = table.columns.length :=
      fun r hr => hlen r (by simp [hr])
    have hrest := selectLoop_ne_crash table cols cond rest htail
    cases hc : condCheck table cond row with
    | crash => exact absurd hc (condCheck_ne_crash hhead)
    | err e => simp [selectLoop, hc, RunResult.bind]
    | ok keep =>
      cases keep with
      | false =>
        simp only [selectLoop, hc, RunResult.bind, Bool.false_eq_true, if_false]
        exact hrest
      | true =>
        cases hp : projectRow table cols row with
        | crash => exact absurd hp (projectRow_ne_crash table cols row hhead)
        | err e => simp [selectLoop, hc, RunResult.bind, hp]
        | ok sr =>
          cases hr : selectLoop table cols cond rest with
          | crash => exact absurd hr hrest
          | err e => simp [selectLoop, hc, RunResult.bind, hp, hr]
          | ok l => simp [selectLoop, hc, RunResult.bind, hp, hr]

theorem select_rows_ne_crash {table : Table} {cols : Option (List String)}
    {cond : Option Condition} (hwf : wfTable table) :
    select_rows table cols cond ≠ .crash :=
  selectLoop_ne_crash table cols cond table.rows hwf

theorem selectLoop_crash (table : Table) (cond : Condition) (j : Nat)
    (hres : colPosition table cond.column = some j) :
    ∀ rows : List Row, (∃ r ∈ rows, r.values.length ≤ j) →
      selectLoop table none (some cond) rows = .crash
  | [], h => by simp at h
  | row :: rest, h => by
    by_cases hrow : row.values.length ≤ j
    · simp [selectLoop, condCheck, hres, List.getElem?_eq_none hrow, RunResult.bind]
    · have hj : j < row.values.length := Nat.lt_of_not_le hrow
      have hshort : ∃ r ∈ rest, r.values.length ≤ j := by
        obtain ⟨r, hr, hlen2⟩ := h
        rcases List.mem_cons.mp hr with rfl | hr2
        · exact absurd hlen2 hrow
        · exact ⟨r, hr2, hlen2⟩
      have hrest := selectLoop_crash table cond j hres rest hshort
      simp only [selectLoop, condCheck, hres, List.getElem?_eq_getElem hj,
        RunResult.bind]
      split
      · simp [projectRow_none, RunResult.bind, hrest]
      · exact hrest

theorem updateRowCopy_ne_crash (table : Table) :
    ∀ (updates : List UpdateColumnRequest) (row : Row),
      row.values.length = table.columns.length →
      updateRowCopy table row updates ≠ .crash
  | [], row, _ => by simp [updateRowCopy]
  | u :: updates, row, hlen => by
    cases hcp : colPosition table u.column with
    | none => simp [updateRowCopy, hcp]
    | some j =>
      have hj : j < row.values.length := hlen ▸ colPosition_lt hcp
      simp only [updateRowCopy, hcp]
      rw [if_pos hj]
      exact updateRowCopy_ne_crash table updates _ (by simpa [Row.new] using hlen)

theorem updateSelectedLoop_ne_crash (table : Table)
    (updates : List UpdateColumnRequest) :
    ∀ rows : List Row, (∀ r ∈ rows, r.values.length = table.columns.length) →
      updateSelectedLoop table updates rows ≠ .crash
  | [], _ => by simp [updateSelectedLoop]
  | row :: rest, hlen => by
    have hhead := hlen row (by simp)
    have htail : ∀ r ∈ rest, r.values.length = table.columns.length :=
      fun r hr => hlen r (by simp [hr])
    have hrest := updateSelectedLoop_ne_crash table updates rest htail
    cases hc : updateRowCopy table row updates with
    | crash => exact absurd hc (updateRowCopy_ne_crash table updates row hhead)
    | err e => simp [updateSelectedLoop, hc, RunResult.bind]
    | ok r2 =>
      cases hr : updateSelectedLoop table updates rest with
      | crash => exact absurd hr hrest
      | err e => simp [updateSelectedLoop, hc, RunResult.bind, hr]
      | ok l => simp [updateSelectedLoop, hc, RunResult.bind, hr]

theorem applyUpdatesSilent_ne_crash (table : Table) :
    ∀ (updates : List UpdateColumnRequest) (row : Row),
      row.values.length = table.columns.length →
      applyUpdatesSilent table row updates ≠ .crash
  | [], row, _ => by simp [applyUpdatesSilent]
  | u :: updates, row, hlen => by
    cases hcp : colPosition table u.column with
    | none =>
      simp only [applyUpdatesSilent, hcp]
      exact applyUpdatesSilent_ne_crash table updates row hlen
    | some j =>
      have hj : j < row.values.length := hlen ▸ colPosition_lt hcp
      simp only [applyUpdatesSilent, hcp]
      rw [if_pos hj]
      exact applyUpdatesSilent_ne_crash table updates _ (by simpa [Row.new] using hlen)

theorem writeBackRow_ne_crash (table : Table) (cond : Option Condition)
    (updates : List UpdateColumnRequest) (row : Row)
    (hlen : row.values.length = table.columns.length) :
    writeBackRow table cond updates row ≠ .crash := by
  cases cond with
  | none => simp [writeBackRow]
  | some c =>
    cases hcp : colPosition table c.column with
    | none => simp [writeBackRow, hcp]
    | some j =>
      have hj : j < row.values.length := hlen ▸ colPosition_lt hcp
      simp only [writeBackRow, hcp, List.getElem?_eq_getElem hj]
      split
      · exact applyUpdatesSilent_ne_crash table updates row hlen
      · simp

theorem writeBackLoop_ne_crash (table : Table) (cond : Option Condition)
    (updates : List UpdateColumnRequest) :
    ∀ rows : List Row, (∀ r ∈ rows, r.values.length = table.columns.length) →
      writeBackLoop table cond updates rows ≠ .crash
  | [], _ => by simp [writeBackLoop]
  | row :: rest, hlen => by
    have hhead := hlen row (by simp)
    have htail : ∀ r ∈ rest, r.values.length = table.columns.length :=
      fun r hr => hlen r (by simp [hr])
    have hrest := writeBackLoop_ne_crash table cond updates rest htail
    cases hc : writeBackRow table cond updates row with
    | crash => exact absurd hc (writeBackRow_ne_crash table cond updates row hhead)
    | err e => simp [writeBackLoop, hc, RunResult.bind]
    | ok r2 =>
      cases hr : writeBackLoop table cond updates rest with
      | crash => exact absurd hr hrest
      | err e => simp [writeBackLoop, hc, RunResult.bind, hr]
      | ok l => simp [writeBackLoop, hc, RunResult.bind, hr]

theorem selectLoop_ok_mem {table : Table} {cond : Option Condition} :
    ∀ {rows l : List Row}, selectLoop table none cond rows = .ok l →
      ∀ r ∈ l, r ∈ rows := by
  intro rows
  induction rows with
  | nil =>
    intro l h r hr
    simp only [selectLoop] at h
    cases h
    simp at hr
  | cons row rest ih =>
    intro l h r hr
    simp only [selectLoop] at h
    cases hc : condCheck table cond row with
    | crash => rw [hc] at h; simp [RunResult.bind] at h
    | err e => rw [hc] at h; simp [RunResult.bind] at h
    | ok keep =>
      rw [hc] at h
      simp only [RunResult.bind] at h
      cases keep with
      | false =>
        simp only [Bool.false_eq_true, if_false] at h
        exact List.mem_cons_of_mem _ (ih h r hr)
      | true =>
        simp only [if_true, projectRow_none] at h
        cases hrec : selectLoop table none cond rest with
        | crash => rw [hrec] at h; simp [RunResult.bind] at h
        | err e => rw [hrec] at h; simp [RunResult.bind] at h
        | ok l2 =>
          rw [hrec] at h
          simp only [RunResult.bind] at h
          cases h
          rcases List.mem_cons.mp hr with rfl | hr2
          · exact List.mem_cons_self _ _
          · exact List.mem_cons_of_mem _ (ih hrec r hr2)

theorem update_table_ne_crash (state : List Table) (payload : UpdateRequest)
    (hwf : ∀ t, AppState.get state payload.table_name = some t → wfTable t) :
    (update_table state payload).2 ≠ .crash := by
  unfold update_table
  cases hg : AppState.get state payload.table_name with
  | none => simp
  | some table =>
    have hwft : wfTable table := hwf table hg
    simp only [hg]
    cases hs : select_rows table none payload.condition with
    | crash => exact absurd hs (select_rows_ne_crash hwft)
    | err e => simp [hs]
    | ok selected_rows =>
      have hs2 : selectLoop table none payload.condition table.rows
          = .ok selected_rows := hs
      have hsel : ∀ r ∈ selected_rows, r.values.length = table.columns.length :=
        fun r hr => hwft r (selectLoop_ok_mem hs2 r hr)
      simp only [hs]
      cases hu : updateSelectedLoop table payload.updates selected_rows with
      | crash =>
        exact absurd hu
          (updateSelectedLoop_ne_crash table payload.updates selected_rows hsel)
      | err e => simp [hu]
      | ok l =>
        simp only [hu]
        cases hw : writeBackLoop table payload.condition payload.updates table.rows with
        | crash =>
          exact absurd hw
            (writeBackLoop_ne_crash table payload.condition payload.updates
              table.rows hwft)
        | err e => simp [hw]
        | ok new_rows => simp [hw]

theorem writeBackRow_of_not_matching {table : Table} {c : Condition} {row : Row}
    {us : List UpdateColumnRequest}
    (h : condCheck table (some c) row = .ok false) :
    writeBackRow table (some c) us row = .ok row := by
  cases hcp : colPosition table c.column with
  | none => simp [writeBackRow, hcp]
  | some j =>
    simp only [condCheck, hcp] at h
    cases hv : row.values[j]? with
    | none => rw [hv] at h; cases h
    | some v =>
      rw [hv] at h
      injection h with h2
      simp [writeBackRow, hcp, hv, h2]

theorem writeBackLoop_of_select_nil {table : Table} {cond : Option Condition}
    (us : List UpdateColumnRequest) :
    ∀ rows : List Row, selectLoop table none cond rows = .ok [] →
      writeBackLoop table cond us rows = .ok rows
  | [], _ => rfl
  | row :: rest, h => by
    simp only [selectLoop] at h
    cases hc : condCheck table cond row with
    | crash => rw [hc] at h; simp [RunResult.bind] at h
    | err e => rw [hc] at h; simp [RunResult.bind] at h
    | ok keep =>
      rw [hc] at h
      simp only [RunResult.bind] at h
      cases keep with
      | true =>
        simp only [if_true, projectRow_none] at h
        cases hrec : selectLoop table none cond rest with
        | crash => rw [hrec] at h; simp [RunResult.bind] at h
        | err e => rw [hrec] at h; simp [RunResult.bind] at h
        | ok l2 => rw [hrec] at h; simp [RunResult.bind] at h
      | false =>
        simp only [Bool.false_eq_true, if_false] at h
        have hrest := writeBackLoop_of_select_nil us rest h
        have hwb : writeBackRow table cond us row = .ok row := by
          cases cond with
          | none => rfl
          | some c => exact writeBackRow_of_not_matching hc
        simp [writeBackLoop, hwb, RunResult.bind, hrest]

theorem updateRowCopy_err_unresolved (table : Table) :
    ∀ (us1 : List UpdateColumnRequest) (u : UpdateColumnRequest)
      (us2 : List UpdateColumnRequest) (row : Row),
      (∀ x ∈ us1, ∃ jx, colPosition table x.column = some jx ∧
        jx < row.values.length) →
      colPosition table u.column = none →
      updateRowCopy table row (us1 ++ u :: us2) = .err (.columnNotFound u.column)
  | [], u, us2, row, _, hu => by simp [updateRowCopy, hu]
  | x :: us1, u, us2, row, hres, hu => by
    obtain ⟨jx, hjx, hlt⟩ := hres x (by simp)
    simp only [List.cons_append, updateRowCopy, hjx]
    rw [if_pos hlt]
    refine updateRowCopy_err_unresolved table us1 u us2 _ (fun y hy => ?_) hu
    obtain ⟨jy, hjy, hlty⟩ := hres y (by simp [hy])
    exact ⟨jy, hjy, by simpa [Row.new] using hlty⟩

theorem updateSelectedLoop_err_head {table : Table} {r : Row} {rest : List Row}
    {us : List UpdateColumnRequest} {e : DbError}
    (h : updateRowCopy table r us = .err e) :
    updateSelectedLoop table us (r :: rest) = .err e := by
  simp [updateSelectedLoop, h, RunResult.bind]

theorem decodeValue_encodeValue (v : Value) :
    decodeValue (encodeValue v) = some v := by
  cases v <;> rfl

theorem decodeValueList_map_encodeValue (vs : List Value) :
    decodeValueList (vs.map encodeValue) = some vs := by
  induction vs with
  | nil => rfl
  | cons v vs ih => simp [decodeValueList, decodeValue_encodeValue, ih]

theorem decodeRow_encodeRow (row : Row) : decodeRow (encodeRow row) = some row := by
  simp only [encodeRow, decodeRow, decodeValueList_map_encodeValue]
  rfl

mutual

theorem decodeColumn_encodeColumn :
    ∀ c : Column, decodeColumn (encodeColumn c) = some c
  | Column.mk key pk nn u fk => by
    simp only [encodeColumn, decodeColumn, decodeForeignKey_encodeForeignKey fk]

theorem decodeForeignKey_encodeForeignKey :
    ∀ fk : Option (List Column), decodeForeignKey (encodeForeignKey fk) = some fk
  | none => rfl
  | some cols => by
    simp only [encodeForeignKey, decodeForeignKey,
      decodeColumnList_encodeColumnList cols]

theorem decodeColumnList_encodeColumnList :
    ∀ cs : List Column, decodeColumnList (encodeColumnList cs) = some cs
  | [] => rfl
  | c :: cs => by
    simp only [encodeColumnList, decodeColumnList, decodeColumn_encodeColumn c,
      decodeColumnList_encodeColumnList cs]

end

theorem decodeRowList_map_encodeRow (rs : List Row) :
    decodeRowList (rs.map encodeRow) = some rs := by
  induction rs with
  | nil => rfl
  | cons r rs ih => simp [decodeRowList, decodeRow_encodeRow, ih]

theorem decodeTable_encodeTable (t : Table) : decodeTable (encodeTable t) = some t := by
  simp only [encodeTable, decodeTable, decodeColumnList_encodeColumnList,
    decodeRowList_map_encodeRow]

theorem decodeTableList_map_encodeTable (ts : List Table) :
    decodeTableList (ts.map encodeTable) = some ts := by
  induction ts with
  | nil => rfl
  | cons t ts ih => simp [decodeTableList, decodeTable_encodeTable, ih]

/-!
## Concrete fixtures for witnesses and counterexamples
-/

/-- A nullable column named `b`. -/
def colB : Column := Column.mk "b" false false false none

/-- A one-column table `t` holding the single row `["old"]`. -/
def tableT : Table :=
  { name := "t", columns := [Column.mk "c" false false false none],
    rows := [Row.new [Value.Str "old"]] }

/-- An empty table named `a`. -/
def tA : Table := { name := "a", columns := [], rows := [] }

/-- An empty table named `b`. -/
def tB : Table := { name := "b", columns := [], rows := [] }

/-- A one-column table `t` with no rows. -/
def tEmptyRows : Table := { name := "t", columns := [colB], rows := [] }

/-- A one-column table `t` whose single row holds `Null`. -/
def tNull : Table :=
  { name := "t", columns := [Column.mk "k" false false false none],
    rows := [Row.new [Value.Null]] }

/-- A two-column table `t` with one full row. -/
def tTwoCols : Table :=
  { name := "t",
    columns := [Column.mk "c1" false false false none,
      Column.mk "c2" false false false none],
    rows := [Row.new [Value.Str "x", Value.Str "y"]] }

/-- A two-column table `t` whose stored row has only one value: a state
the data model permits (insert a column into a table already holding
rows) in which positional access to column `c2` is out of bounds. -/
def tShort : Table :=
  { name := "t",
    columns := [Column.mk "c1" false false false none,
      Column.mk "c2" false false false none],
    rows := [Row.new [Value.Str "x"]] }

/-!
## Claim theorems
-/

/-- C1: the claim fails on the code — `update_table` with
`condition = None` and a resolving update column returns success but
writes nothing back: the first pass updates only discarded copies, and
the write-back pass is guarded by `if let Some(condition)`.  At the
failing input below, the stored table keeps the row `["old"]` while the
claim requires it to become `["new"]`. -/
theorem update_none_condition_writes_nothing :
    update_table [tableT]
      { table_name := "t", condition := none,
        updates := [{ column := "c", value := "new" }] } = ([tableT], .ok ())
    ∧ tableT.rows ≠ [Row.new [Value.Str "new"]] := by
  constructor
  · rfl
  · intro h
    simp [tableT, Row.new] at h

/-- C2 counterexample: constructing a `Column` with `primary_key = true`
and `non_null = false` succeeds and produces a `Column` value, so the
claim that construction fails with a recoverable `ConstraintViolation`
and produces no value is false on the code. -/
theorem column_new_no_validation_cex :
    Column.new "k" true false true none = Column.mk "k" true false true none
    ∧ (Column.new "k" true false true none).primary_key = true
    ∧ (Column.new "k" true false true none).non_null = false :=
  ⟨rfl, rfl, rfl⟩

/-- C2 amended: `Column::new` performs no validation at all and always
returns the column built from its arguments; the only primary-key
constraint check in the code base is in `Entry::new`, which aborts the
process (a panic, not a recoverable error) exactly when
`primary_key && (non_null == false || value.is_empty())` or
`primary_key && !unique`. -/
theorem column_new_total_entry_new_aborts :
    (∀ (key : String) (pk nn u : Bool) (fk : Option (List Column)),
      Column.new key pk nn u fk = Column.mk key pk nn u fk)
    ∧ (∀ (key value : String) (pk nn u : Bool) (fk : Option (List Entry)),
        Entry.new key value pk nn u fk = none ↔
          (pk && (!nn || value.isEmpty) || pk && !u) = true) := by
  constructor
  · intro key pk nn u fk
    rfl
  · intro key value pk nn u fk
    unfold Entry.new
    cases pk <;> cases nn <;> cases u <;> cases hv : value.isEmpty <;> simp [hv]

/-- C3: for an existing table, `insert_row` fails with the arity error
when the row is longer than the column list, and with `k` missing
values it succeeds — storing the row right-padded with `k` `Null`s —
exactly when none of the trailing `k` columns is `non_null`; otherwise
it fails with the non-null violation and the collection is returned
unchanged. -/
theorem insert_row_arity_and_padding (state : List Table)
    (payload : InsertRowRequest) (table : Table)
    (hget : AppState.get state payload.table_name = some table) :
    (payload.row.values.length > table.columns.length →
      insert_row state payload =
        (state, .err (.rowArityExceeded payload.row.values.length
          table.columns.length)))
    ∧ (∀ k : Nat, payload.row.values.length + k = table.columns.length →
        ((∃ st2 out, insert_row state payload = (st2, .ok out) ∧
            ({ name := table.name, columns := table.columns,
                rows := table.rows ++
                  [Row.new (payload.row.values ++ List.replicate k Value.Null)] }
              : Table) ∈ st2)
          ↔ ∀ col ∈ table.columns.reverse.take k, col.non_null = false)
        ∧ (0 < k →
            (table.columns.reverse.take k).any (fun col => col.non_null) = true →
            insert_row state payload =
              (state, .err (.nonNullViolation payload.row.values.length
                table.columns.length)))) := by
  unfold insert_row
  simp only [hget]
  constructor
  · intro hgt
    rw [if_pos hgt]
  · intro k hk
    by_cases hk0 : k = 0
    · subst hk0
      rw [if_neg (by omega), if_neg (by omega)]
      constructor
      · constructor
        · intro _ col hcol
          simp at hcol
        · intro _
          refine ⟨_, _, rfl, ?_⟩
          refine List.mem_append_right _ ?_
          simp [insertRowFinish, Table.add_row, Row.new]
      · intro h0
        omega
    · have hlt : payload.row.values.length < table.columns.length := by omega
      have hk2 : table.columns.length - payload.row.values.length = k := by omega
      rw [if_neg (by omega), if_pos hlt, hk2]
      cases hany : (table.columns.reverse.take k).any (fun col => col.non_null) with
      | true =>
        rw [if_pos rfl]
        constructor
        · constructor
          · rintro ⟨st2, out, heq, -⟩
            injection heq with h1 h2
            cases h2
          · intro hall
            obtain ⟨col, hcol, hnn⟩ := List.any_eq_true.mp hany
            exact absurd (hall col hcol) (by simp [hnn])
        · intro _ _
          rfl
      | false =>
        rw [if_neg (by simp)]
        constructor
        · constructor
          · intro _
            exact fun col hcol => by
              simpa using List.any_eq_false.mp hany col hcol
          · intro _
            refine ⟨_, _, rfl, ?_⟩
            refine List.mem_append_right _ ?_
            simp [insertRowFinish, Table.add_row, Row.new]
        · intro _ habs
          simp at habs

/-- C3 witness: on a one-column nullable table, a two-value row is
rejected with the arity error, and an empty row is padded with one
`Null` and stored. -/
theorem insert_row_arity_and_padding_witness :
    (insert_row [tEmptyRows]
      { table_name := "t", row := Row.new [Value.Str "1", Value.Str "2"] } =
      ([tEmptyRows], .err (.rowArityExceeded 2 1)))
    ∧ (∃ st2 out, insert_row [tEmptyRows]
        { table_name := "t", row := Row.new [] } = (st2, .ok out) ∧
        ({ name := tEmptyRows.name, columns := tEmptyRows.columns,
            rows := (tEmptyRows.rows ++ [Row.new ((Row.new []).values ++ List.replicate 1 Value.Null)]) }
          : Table) ∈ st2) :=
  ⟨(insert_row_arity_and_padding [tEmptyRows]
      { table_name := "t", row := Row.new [Value.Str "1", Value.Str "2"] }
      tEmptyRows rfl).1 (by decide),
   ((insert_row_arity_and_padding [tEmptyRows]
      { table_name := "t", row := Row.new [] }
      tEmptyRows rfl).2 1 (by decide)).1.mpr (by decide)⟩

/-- C4 counterexample: on a table with no rows, a select whose condition
names an absent column returns the empty result instead of failing with
`ColumnNotFound` — the resolution happens inside the per-row loop, so
with zero rows it never runs. -/
theorem select_missing_condition_col_cex :
    select_rows tEmptyRows none (some { column := "zzz", value := "v" }) =
      .ok [] := rfl

/-- C4 amended: a select whose condition names a column absent from the
table fails with `ColumnNotFound` exactly when the table has at least
one stored row (the error fires while scanning the first row, whether
or not any row would match); with no rows it returns the empty list. -/
theorem select_missing_condition_col (table : Table)
    (cols : Option (List String)) (cond : Condition)
    (hres : colPosition table cond.column = none) :
    (table.rows ≠ [] →
      select_rows table cols (some cond) = .err (.columnNotFound cond.column))
    ∧ (table.rows = [] → select_rows table cols (some cond) = .ok []) := by
  constructor
  · intro hne
    unfold select_rows
    cases hrows : table.rows with
    | nil => exact absurd hrows hne
    | cons r rest =>
      simp [selectLoop, condCheck, hres, RunResult.bind]
  · intro hnil
    unfold select_rows
    rw [hnil]
    rfl

/-- C4 witness: on a one-row table the absent condition column is
reported as `ColumnNotFound`. -/
theorem select_missing_condition_col_witness :
    select_rows tableT none (some { column := "zzz", value := "v" }) =
      .err (.columnNotFound "zzz") :=
  (select_missing_condition_col tableT none { column := "zzz", value := "v" }
    rfl).1 (by simp [tableT])

/-- C5 counterexample: on a table with no rows (hence no row matching
the condition) an update naming an absent column succeeds instead of
failing with `ColumnNotFound`: the update columns are only resolved
while iterating the selected rows. -/
theorem update_unresolved_column_cex :
    update_table [tEmptyRows]
      { table_name := "t", condition := none,
        updates := [{ column := "zzz", value := "v" }] } =
      ([tEmptyRows], .ok ()) := rfl

/-- C5 amended: an update containing an unresolvable column name fails
with `ColumnNotFound` before any state change exactly when at least one
row survives the condition filter (the error fires on the first selected
row, before the earlier resolving updates of that row are persisted);
when no row matches, the unresolved name goes undetected and the update
succeeds with every stored row unchanged. -/
theorem update_unresolved_column (state : List Table) (payload : UpdateRequest)
    (table : Table) (hget : AppState.get state payload.table_name = some table) :
    (∀ (r : Row) (rest : List Row) (us1 : List UpdateColumnRequest)
        (u : UpdateColumnRequest) (us2 : List UpdateColumnRequest),
      select_rows table none payload.condition = .ok (r :: rest) →
      payload.updates = us1 ++ u :: us2 →
      (∀ x ∈ us1, ∃ jx, colPosition table x.column = some jx ∧
        jx < r.values.length) →
      colPosition table u.column = none →
      update_table state payload = (state, .err (.columnNotFound u.column)))
    ∧ (select_rows table none payload.condition = .ok [] →
        update_table state payload =
          (AppState.create (AppState.drop_table state payload.table_name).1
            { name := payload.table_name, columns := table.columns,
              rows := table.rows },
           .ok ())) := by
  unfold update_table
  simp only [hget]
  constructor
  · intro r rest us1 u us2 hs hup hres1 hu
    have hcopy := updateRowCopy_err_unresolved table us1 u us2 r hres1 hu
    have hloop := @updateSelectedLoop_err_head table r rest (us1 ++ u :: us2)
      (DbError.columnNotFound u.column) hcopy
    rw [hup]
    simp only [hs, hloop]
  · intro hnil
    have hnil2 : selectLoop table none payload.condition table.rows = .ok [] := hnil
    have hwb := writeBackLoop_of_select_nil payload.updates table.rows hnil2
    simp only [hnil, hwb]
    have hempty : updateSelectedLoop table payload.updates [] = .ok [] := rfl
    simp only [hempty]

/-- C5 witness: on a one-row table whose row matches (no condition), the
unresolved update column is reported before anything is stored. -/
theorem update_unresolved_column_witness :
    update_table [tableT]
      { table_name := "t", condition := none,
        updates := [{ column := "zzz", value := "v" }] } =
      ([tableT], .err (.columnNotFound "zzz")) :=
  (update_unresolved_column [tableT]
      { table_name := "t", condition := none,
        updates := [{ column := "zzz", value := "v" }] }
      tableT rfl).1 (Row.new [Value.Str "old"]) [] []
    { column := "zzz", value := "v" } [] rfl rfl (by simp) rfl

/-- C6 counterexample: `rename_table` never checks whether a table with
the new name exists; renaming `a` onto the existing name `b` yields a
collection storing two tables under the name `b`. -/
theorem rename_duplicate_names_cex :
    rename_table [tA, tB] "a" "b" =
      ([tB, { name := "b", columns := [], rows := [] }], .ok ())
    ∧ tableNames [tB, { name := "b", columns := [], rows := [] }] = ["b", "b"]
    ∧ ¬ namesNodup [tB, { name := "b", columns := [], rows := [] }] := by
  refine ⟨rfl, rfl, ?_⟩
  simp [namesNodup, tableNames, tB]

/-- C6 amended: starting from a collection with pairwise-distinct table
names, the operations `create`, `create_table`, `drop_table`,
`insert_column`, `insert_row` and `update_table` preserve distinctness,
and `rename_table old new` preserves it when `new = old` or no table
named `new` is present; renaming onto another existing name, however,
produces two tables stored under the same name (the counterexample). -/
theorem state_ops_preserve_name_uniqueness :
    ∀ state : List Table, namesNodup state →
      (∀ n, namesNodup (create state n).1)
      ∧ (∀ payload, namesNodup (create_table state payload).1)
      ∧ (∀ n, namesNodup (drop_table state n).1)
      ∧ (∀ payload, namesNodup (insert_column state payload).1)
      ∧ (∀ payload, namesNodup (insert_row state payload).1)
      ∧ (∀ payload, namesNodup (update_table state payload).1)
      ∧ (∀ old_name new_name,
          (new_name = old_name ∨ AppState.get state new_name = none) →
          namesNodup (rename_table state old_name new_name).1) := by
  intro state hnd
  exact ⟨fun n => create_preserves_nodup state n hnd,
    fun p => create_table_preserves_nodup state p hnd,
    fun n => drop_preserves_nodup state n hnd,
    fun p => insert_column_preserves_nodup state p hnd,
    fun p => insert_row_preserves_nodup state p hnd,
    fun p => update_table_preserves_nodup state p hnd,
    fun o n h => rename_preserves_nodup state o n hnd h⟩

/-- C6 witness: a fresh rename on a singleton collection keeps the
names distinct. -/
theorem state_ops_preserve_name_uniqueness_witness :
    namesNodup [tA] ∧ namesNodup (rename_table [tA] "a" "b").1 :=
  ⟨by simp [namesNodup, tableNames],
   (state_ops_preserve_name_uniqueness [tA]
      (by simp [namesNodup, tableNames])).2.2.2.2.2.2 "a" "b" (Or.inr rfl)⟩

/-- C7 counterexample: a stored `Null` (whose string projection is
absent) matches the empty-string comparison value, because the handler
compares `as_string().unwrap_or_default()`; the claim that a `Null`
value never matches a non-null comparison value (including the empty
string) is therefore false on the code. -/
theorem null_matches_empty_condition_cex :
    select_rows tNull none (some { column := "k", value := "" }) =
      .ok [Row.new [Value.Null]]
    ∧ Value.Null.as_string = none :=
  ⟨rfl, rfl⟩

/-- C7 amended: a condition resolved to column position `j` retains
exactly the rows whose value at `j` projects — with `Null` projecting
to the empty string — to a string equal to the comparison value, in
storage order; consequently a row holding `Null` at `j` matches exactly
the empty-string comparison value (and no non-empty one). -/
theorem select_condition_matching (table : Table) (cond : Condition) (j : Nat)
    (hres : colPosition table cond.column = some j)
    (hlen : ∀ r ∈ table.rows, r.values.length = table.columns.length) :
    select_rows table none (some cond) =
      .ok (table.rows.filter (fun r => matchesCondSpec r j cond.value))
    ∧ (∀ r ∈ table.rows, r.values.getD j Value.Null = Value.Null →
        (matchesCondSpec r j cond.value = true ↔ cond.value = "")) := by
  constructor
  · have h := selectLoop_ok table none (some cond)
      (fun r => matchesCondSpec r j cond.value) (fun r => r)
      (fun r hr => condCheck_ok hres hr) (fun r _ => projectRow_none table r)
      table.rows hlen
    simpa using h
  · intro r hr hNull
    rw [matchesCondSpec, hNull]
    simp only [Value.as_string, Option.getD_none]
    rw [beq_iff_eq]
    exact eq_comm

/-- C7 witness: with a non-empty comparison value, the `Null` row is
filtered out. -/
theorem select_condition_matching_witness :
    select_rows tNull none (some { column := "k", value := "x" }) =
      .ok (tNull.rows.filter (fun r => matchesCondSpec r 0 "x")) :=
  (select_condition_matching tNull { column := "k", value := "x" } 0 rfl
    (by simp [tNull, Row.new])).1

/-- C8: when every requested projection name resolves (in the requested
order, to positions `is`) and every stored row is full length, select
returns the retained rows in the original storage order; with an
explicit projection the values of each row appear in the requested
column order (positions `is`), and with no projection each row is
returned whole in table-column order.  The three conjuncts cover no
condition / a resolving condition. -/
theorem select_order_and_projection (table : Table) (names : List String)
    (is : List Nat) (hnames : names.mapM (colPosition table) = some is)
    (hlen : ∀ r ∈ table.rows, r.values.length = table.columns.length) :
    (select_rows table none none = .ok table.rows)
    ∧ (select_rows table (some names) none =
        .ok (table.rows.map (fun r =>
          Row.new (is.map (fun i => r.values.getD i Value.Null)))))
    ∧ (∀ (cond : Condition) (j : Nat), colPosition table cond.column = some j →
        select_rows table (some names) (some cond) =
          .ok ((table.rows.filter (fun r => matchesCondSpec r j cond.value)).map
            (fun r => Row.new (is.map (fun i => r.values.getD i Value.Null))))) := by
  refine ⟨?_, ?_, ?_⟩
  · have h := selectLoop_ok table none none (fun _ => true) (fun r => r)
      (fun r _ => condCheck_none table r) (fun r _ => projectRow_none table r)
      table.rows hlen
    simpa using h
  · have h := selectLoop_ok table (some names) none (fun _ => true)
      (fun r => Row.new (is.map (fun i => r.values.getD i Value.Null)))
      (fun r _ => condCheck_none table r) (fun r hr => projectRow_some hnames hr)
      table.rows hlen
    simpa using h
  · intro cond j hj
    exact selectLoop_ok table (some names) (some cond)
      (fun r => matchesCondSpec r j cond.value)
      (fun r => Row.new (is.map (fun i => r.values.getD i Value.Null)))
      (fun r hr => condCheck_ok hj hr) (fun r hr => projectRow_some hnames hr)
      table.rows hlen

/-- C8 witness: requesting `["c2", "c1"]` on a two-column table returns
the row's values in the requested (reversed) order. -/
theorem select_order_and_projection_witness :
    select_rows tTwoCols (some ["c2", "c1"]) none =
      .ok (tTwoCols.rows.map (fun r =>
        Row.new ([1, 0].map (fun i => r.values.getD i Value.Null)))) :=
  (select_order_and_projection tTwoCols ["c2", "c1"] [1, 0] rfl
    (by simp [tTwoCols, Row.new])).2.1

/-- C9: serializing the whole table collection to the snapshot format
and deserializing the result reproduces the collection exactly — table
names, column order, column flags (including the foreign-key trees),
row values and their order are all preserved. -/
theorem snapshot_roundtrip :
    ∀ tables : List Table, loadSnapshot (saveSnapshot tables) = some tables := by
  intro tables
  simp only [saveSnapshot, loadSnapshot, decodeTableList_map_encodeTable]

theorem selectLoop_none_none (table : Table) :
    ∀ rows : List Row, selectLoop table none none rows = .ok rows
  | [] => rfl
  | r :: rest => by
    simp [selectLoop, condCheck_none, RunResult.bind, projectRow_none,
      selectLoop_none_none table rest]

theorem updateRowCopy_no_err (table : Table) :
    ∀ (xs : List UpdateColumnRequest) (row : Row),
      (∀ x ∈ xs, (colPosition table x.column).isSome) →
      ∀ e : DbError, updateRowCopy table row xs ≠ .err e
  | [], row, _, e => by simp [updateRowCopy]
  | x :: xs, row, hall, e => by
    have hx := hall x (by simp)
    obtain ⟨jx, hjx⟩ := Option.isSome_iff_exists.mp hx
    simp only [updateRowCopy, hjx]
    by_cases hlt : jx < row.values.length
    · rw [if_pos hlt]
      exact updateRowCopy_no_err table xs _ (fun y hy => hall y (by simp [hy])) e
    · rw [if_neg hlt]
      simp

theorem updateSelectedLoop_crash (table : Table) (u : UpdateColumnRequest)
    (us : List UpdateColumnRequest) (j : Nat)
    (hu : colPosition table u.column = some j)
    (hall : ∀ x ∈ us, (colPosition table x.column).isSome) :
    ∀ rows : List Row, (∃ r ∈ rows, r.values.length ≤ j) →
      updateSelectedLoop table (u :: us) rows = .crash
  | [], h => by simp at h
  | r :: rest, h => by
    by_cases hr : r.values.length ≤ j
    · have hcopy : updateRowCopy table r (u :: us) = .crash := by
        simp only [updateRowCopy, hu]
        rw [if_neg (by omega)]
      simp [updateSelectedLoop, hcopy, RunResult.bind]
    · have hshort : ∃ x ∈ rest, x.values.length ≤ j := by
        obtain ⟨x, hx, hxl⟩ := h
        rcases List.mem_cons.mp hx with rfl | hx2
        · exact absurd hxl hr
        · exact ⟨x, hx2, hxl⟩
      have hrest := updateSelectedLoop_crash table u us j hu hall rest hshort
      have hallc : ∀ x ∈ u :: us, (colPosition table x.column).isSome := by
        intro x hx
        rcases List.mem_cons.mp hx with rfl | hx2
        · simp [hu]
        · exact hall x hx2
      cases hcopy : updateRowCopy table r (u :: us) with
      | err e => exact absurd hcopy (updateRowCopy_no_err table (u :: us) r hallc e)
      | crash => simp [updateSelectedLoop, hcopy, RunResult.bind]
      | ok r2 => simp [updateSelectedLoop, hcopy, RunResult.bind, hrest]

/-- C10: select and update never perform an out-of-bounds positional
access when every stored row of the addressed table is exactly as long
as its column list; but on any table holding a row shorter than a
resolved column index, both operations' unchecked row indexing reaches
an out-of-bounds access — modelled by `RunResult.crash` — instead of
returning a result or an error: select through a resolved condition
index (third conjunct), update through a resolved update index on a
short selected row (fourth conjunct). -/
theorem positional_access_safety :
    (∀ (table : Table) (cols : Option (List String)) (cond : Option Condition),
      wfTable table → select_rows table cols cond ≠ .crash)
    ∧ (∀ (state : List Table) (payload : UpdateRequest),
        (∀ t, AppState.get state payload.table_name = some t → wfTable t) →
        (update_table state payload).2 ≠ .crash)
    ∧ (∀ (table : Table) (cond : Condition) (j : Nat),
        colPosition table cond.column = some j →
        (∃ r ∈ table.rows, r.values.length ≤ j) →
        select_rows table none (some cond) = .crash)
    ∧ (∀ (state : List Table) (payload : UpdateRequest) (table : Table)
        (u : UpdateColumnRequest) (us : List UpdateColumnRequest) (j : Nat),
        AppState.get state payload.table_name = some table →
        payload.condition = none →
        payload.updates = u :: us →
        colPosition table u.column = some j →
        (∀ x ∈ us, (colPosition table x.column).isSome) →
        (∃ r ∈ table.rows, r.values.length ≤ j) →
        (update_table state payload).2 = .crash) := by
  refine ⟨?_, ?_, ?_, ?_⟩
  · intro table cols cond hwf
    exact select_rows_ne_crash hwf
  · intro state payload hwf
    exact update_table_ne_crash state payload hwf
  · intro table cond j hres hex
    exact selectLoop_crash table cond j hres table.rows hex
  · intro state payload table u us j hget hcond hup hu hall hex
    have hsel : select_rows table none payload.condition = .ok table.rows := by
      rw [hcond]
      exact selectLoop_none_none table table.rows
    have hloop : updateSelectedLoop table payload.updates table.rows = .crash := by
      rw [hup]
      exact updateSelectedLoop_crash table u us j hu hall table.rows hex
    unfold update_table
    simp only [hget, hsel, hloop]

/-- C10 witness: a two-column table whose stored row has one value
crashes both on a select whose condition names the second column and on
an update that writes the second column. -/
theorem positional_access_safety_witness :
    select_rows tShort none (some { column := "c2", value := "y" }) = .crash
    ∧ (update_table [tShort]
        { table_name := "t", condition := none,
          updates := [{ column := "c2", value := "v" }] }).2 = .crash :=
  ⟨positional_access_safety.2.2.1 tShort { column := "c2", value := "y" } 1 rfl
    ⟨Row.new [Value.Str "x"], by simp [tShort], by simp [Row.new]⟩,
   positional_access_safety.2.2.2 [tShort]
    { table_name := "t", condition := none,
      updates := [{ column := "c2", value := "v" }] }
    tShort { column := "c2", value := "v" } [] 1 rfl rfl rfl rfl (by simp)
    ⟨Row.new [Value.Str "x"], by simp [tShort], by simp [Row.new]⟩⟩
